import Mathlib

/-!
Shallow embedding of `src/iir6.rs` (the `IIR6` sixth-order IIR filter of the
`idsp` crate) and verification of its specified behaviour.

The Rust code is generic over `T: Float + Default + Sum<T>`.  We embed it over
an arbitrary type `T` carrying the operations the code uses — addition and a
zero (for the multiply-accumulate sum), multiplication, and a linear order
(for `clamp`) — and state the behavioural theorems at concrete instances:
a generic linearly ordered commutative ring (an idealized exact numeric
type, instantiated at `ℤ` for concrete witnesses), and `EReal` where the
claim needs the infinities `-inf` / `+inf` as limit values.  NaN and rounding are outside this
model.
-/

namespace Idsp

/-- Type `Vec13<T> = [T; 13]`: the IIR state / coefficient vector type
(`pub type Vec13<T> = [T; 13];` in `iir6.rs`), embedded as `Fin 13 → T`. -/
abbrev Vec13 (T : Type*) := Fin 13 → T

/-- The `IIR6<T>` configuration struct of `iir6.rs`: coefficients `ba`
(`[b0...b6, -a1...-a6]`), output offset `y_offset`, output limits `y_min`,
`y_max`. -/
structure IIR6 (T : Type*) where
  ba : Vec13 T
  y_offset : T
  y_min : T
  y_max : T

/-- Function `num_traits::clamp(input, min, max)` as used by `iir6.rs`
(external dependency, embedded from its definition):
`if input < min { min } else if input > max { max } else { input }`. -/
def clamp {T : Type*} [LinearOrder T] (input mn mx : T) : T :=
  if input < mn then mn else if input > mx then mx else input

/-- Modelled from the spec: the MAC primitive (`super::macc`, whose source
module is not included in `src/`).  The spec fixes its contract:
`macc(offset, a, b) -> offset + Σ a[i]*b[i]` over equal-length sequences.
`iir6.rs` calls it as `macc(self.y_offset, xy, &self.ba)`. -/
def macc {T : Type*} [AddCommMonoid T] [Mul T] (y0 : T) (x a : Vec13 T) : T :=
  y0 + ∑ i, x i * a i

/-- The in-place history shift plus input store of `IIR6::update`:
`xy.copy_within(0..n - 1, 1)` (slot `i+1` receives old slot `i`, slot `0`
temporarily keeps its old value) followed by `xy[0] = x0`. -/
def shiftIn {T : Type*} (xy : Vec13 T) (x0 : T) : Vec13 T :=
  Function.update
    (fun i : Fin 13 =>
      if h : (i : ℕ) = 0 then xy i else xy ⟨(i : ℕ) - 1, by omega⟩)
    0 x0

/-- The pre-clamp ("raw") output value computed by `IIR6::update` after the
history shift: `xy[n / 2 + 1]` (slot 7, the previously emitted output) when
`hold`, otherwise `macc(self.y_offset, xy, &self.ba)`. -/
def raw {T : Type*} [AddCommMonoid T] [Mul T]
    (c : IIR6 T) (xy : Vec13 T) (x0 : T) (hold : Bool) : T :=
  if hold then shiftIn xy x0 7 else macc c.y_offset (shiftIn xy x0) c.ba

/-- Method `IIR6::update(&self, xy, x0, hold)`: shift the history, store the new
input in slot 0, compute the raw output (held previous output or MAC),
clamp it to `[y_min, y_max]`, store it in slot `n / 2` (slot 6) and return
it.  The Rust code mutates `xy` and returns `y0`; we return the pair
`(y0, new xy)`. -/
def update {T : Type*} [AddCommMonoid T] [Mul T] [LinearOrder T]
    (c : IIR6 T) (xy : Vec13 T) (x0 : T) (hold : Bool) : T × Vec13 T :=
  let xy2 : Vec13 T := shiftIn xy x0
  let y0 : T := if hold then xy2 7 else macc c.y_offset xy2 c.ba
  let y0 : T := clamp y0 c.y_min c.y_max
  (y0, Function.update xy2 6 y0)

/-- Constructor `IIR6::new(y_min, y_max)`: record with all-zero taps and offset and the
given bounds (`T::default()` is zero for the numeric types in question). -/
def IIR6.new {T : Type*} [Zero T] (y_min y_max : T) : IIR6 T :=
  { ba := fun _ => 0, y_offset := 0, y_min := y_min, y_max := y_max }

/-- The shifted history as the spec words it (for comparison with the code
path in claim C1): the new input sits in slot 0 and every previously stored
sample has moved one slot older. -/
def specHistory {T : Type*} (xy : Vec13 T) (x0 : T) : Vec13 T :=
  fun k => if h : (k : ℕ) = 0 then x0 else xy ⟨(k : ℕ) - 1, by omega⟩

section Lemmas

variable {T : Type*}

lemma shiftIn_eq_specHistory (xy : Vec13 T) (x0 : T) :
    shiftIn xy x0 = specHistory xy x0 := by
  funext k
  by_cases h : (k : ℕ) = 0
  · have hk : k = 0 := Fin.ext (by simpa using h)
    subst hk
    simp [shiftIn, specHistory, Function.update]
  · have hne : k ≠ 0 := fun hc => h (by simp [hc])
    simp [shiftIn, specHistory, Function.update, hne, h]

lemma shiftIn_apply_of_ne (xy : Vec13 T) (x0 : T) {k : Fin 13}
    (h : (k : ℕ) ≠ 0) : shiftIn xy x0 k = xy ⟨(k : ℕ) - 1, by omega⟩ := by
  rw [shiftIn_eq_specHistory]
  simp [specHistory, h]

lemma shiftIn_apply_zero (xy : Vec13 T) (x0 : T) : shiftIn xy x0 0 = x0 := by
  rw [shiftIn_eq_specHistory]
  simp [specHistory]

lemma clamp_eq_self [LinearOrder T] {v mn mx : T} (h1 : mn ≤ v) (h2 : v ≤ mx) :
    clamp v mn mx = v := by
  simp [clamp, not_lt_of_le h1, not_lt_of_le h2]

lemma clamp_mem [LinearOrder T] {v mn mx : T} (h : mn ≤ mx) :
    mn ≤ clamp v mn mx ∧ clamp v mn mx ≤ mx := by
  unfold clamp
  split_ifs with h1 h2
  · exact ⟨le_refl mn, h⟩
  · exact ⟨h, le_refl mx⟩
  · exact ⟨le_of_not_lt h1, le_of_not_lt h2⟩

variable [AddCommMonoid T] [Mul T] [LinearOrder T]

lemma update_fst (c : IIR6 T) (xy : Vec13 T) (x0 : T) (hold : Bool) :
    (update c xy x0 hold).1 = clamp (raw c xy x0 hold) c.y_min c.y_max := rfl

lemma update_snd (c : IIR6 T) (xy : Vec13 T) (x0 : T) (hold : Bool) :
    (update c xy x0 hold).2 =
      Function.update (shiftIn xy x0) 6 (update c xy x0 hold).1 := rfl

lemma update_snd_apply_ne (c : IIR6 T) (xy : Vec13 T) (x0 : T) (hold : Bool)
    {i : Fin 13} (h : i ≠ 6) :
    (update c xy x0 hold).2 i = shiftIn xy x0 i := by
  rw [update_snd, Function.update_noteq h]

lemma update_snd_zero (c : IIR6 T) (xy : Vec13 T) (x0 : T) (hold : Bool) :
    (update c xy x0 hold).2 0 = x0 := by
  rw [update_snd_apply_ne c xy x0 hold (by decide), shiftIn_apply_zero]

lemma update_snd_six (c : IIR6 T) (xy : Vec13 T) (x0 : T) (hold : Bool) :
    (update c xy x0 hold).2 6 = (update c xy x0 hold).1 := by
  rw [update_snd, Function.update_same]

lemma update_snd_shift (c : IIR6 T) (xy : Vec13 T) (x0 : T) (hold : Bool)
    {i : Fin 13} (h6 : i ≠ 6) (h0 : (i : ℕ) ≠ 0) :
    (update c xy x0 hold).2 i = xy ⟨(i : ℕ) - 1, by omega⟩ := by
  rw [update_snd_apply_ne c xy x0 hold h6, shiftIn_apply_of_ne xy x0 h0]

end Lemmas

/-- Claim C1: for every coefficient record, history buffer and input, `update`
with `hold = false` returns `clamp(y_offset + Σ_{k=0}^{12} ba[k] * h[k],
y_min, y_max)`, where `h` is the history buffer after the time-advance shift
with the new input in slot 0, and the MAC runs over the full 13-element
buffer against the full 13-element coefficient vector. -/
theorem iir6_update_mac_clamp {T : Type*} [LinearOrderedCommRing T]
    (c : IIR6 T) (xy : Vec13 T) (x0 : T) :
    (update c xy x0 false).1 =
      clamp (c.y_offset + ∑ k, c.ba k * specHistory xy x0 k)
        c.y_min c.y_max := by
  rw [update_fst]
  have hraw : raw c xy x0 false = macc c.y_offset (shiftIn xy x0) c.ba := rfl
  rw [hraw]
  unfold macc
  rw [shiftIn_eq_specHistory]
  have hsum : ∑ i, specHistory xy x0 i * c.ba i =
      ∑ k, c.ba k * specHistory xy x0 k :=
    Finset.sum_congr rfl fun i _ => mul_comm _ _
  rw [hsum]

/-- Claim C6: with all 13 entries of `ba` zero, `update` with `hold = false`
returns `clamp(y_offset, y_min, y_max)` for every history buffer and every
input (so for every call of any input sequence). -/
theorem iir6_zero_taps_inert {T : Type*} [LinearOrderedCommRing T]
    (c : IIR6 T) (xy : Vec13 T) (x0 : T) (hba : ∀ k, c.ba k = 0) :
    (update c xy x0 false).1 = clamp c.y_offset c.y_min c.y_max := by
  rw [update_fst]
  have hraw : raw c xy x0 false = macc c.y_offset (shiftIn xy x0) c.ba := rfl
  rw [hraw]
  unfold macc
  have hsum : ∑ i, shiftIn xy x0 i * c.ba i = 0 :=
    Finset.sum_eq_zero fun i _ => by rw [hba i, mul_zero]
  rw [hsum, add_zero]

/-- Witness for claim C6 at `T = ℤ`: a record with zero taps, offset 3 and
bounds `[0, 2]` outputs `clamp 3 0 2` on a nonzero history and input. -/
theorem iir6_zero_taps_inert_witness :
    (∀ k, ({ ba := fun _ => 0, y_offset := 3, y_min := 0, y_max := 2 } :
        IIR6 ℤ).ba k = 0) ∧
      (update ({ ba := fun _ => 0, y_offset := 3, y_min := 0, y_max := 2 } :
          IIR6 ℤ) (fun _ => 5) 7 false).1 = clamp 3 0 2 :=
  ⟨fun _ => rfl,
    iir6_zero_taps_inert _ (fun _ => 5) 7 fun _ => rfl⟩

/-- Claim C10: `update` with `hold = true` on the all-zero freshly
constructed history buffer returns `clamp(0, y_min, y_max)`; the statement
does not mention the supplied input `x0` on the right-hand side, so the
input is ignored. -/
theorem iir6_hold_first_call {T : Type*} [LinearOrderedCommRing T]
    (c : IIR6 T) (x0 : T) :
    (update c (fun _ => 0) x0 true).1 = clamp 0 c.y_min c.y_max := by
  rw [update_fst]
  have hraw : raw c (fun _ => 0) x0 true = shiftIn (fun _ => 0) x0 7 := rfl
  rw [hraw, shiftIn_apply_of_ne _ _ (by decide)]

/-- Claim C2: every `update` call (either value of `hold`) advances the
history buffer exactly one step.  Slot 0 receives the new input, slot 6 (the
newest-output slot) receives the returned output, every other slot `i`
receives the old slot `i - 1`, and the whole call is insensitive to the old
slot 12 (the single oldest stored value is discarded).  The buffer length is
fixed at 13 by the type `Vec13`. -/
theorem iir6_time_advance {T : Type*} [LinearOrderedCommRing T]
    (c : IIR6 T) (xy : Vec13 T) (x0 : T) (hold : Bool) :
    (update c xy x0 hold).2 0 = x0 ∧
    (update c xy x0 hold).2 1 = xy 0 ∧
    (update c xy x0 hold).2 2 = xy 1 ∧
    (update c xy x0 hold).2 3 = xy 2 ∧
    (update c xy x0 hold).2 4 = xy 3 ∧
    (update c xy x0 hold).2 5 = xy 4 ∧
    (update c xy x0 hold).2 6 = (update c xy x0 hold).1 ∧
    (update c xy x0 hold).2 7 = xy 6 ∧
    (update c xy x0 hold).2 8 = xy 7 ∧
    (update c xy x0 hold).2 9 = xy 8 ∧
    (update c xy x0 hold).2 10 = xy 9 ∧
    (update c xy x0 hold).2 11 = xy 10 ∧
    (update c xy x0 hold).2 12 = xy 11 ∧
    ∀ v : T, update c (Function.update xy 12 v) x0 hold = update c xy x0 hold := by
  refine ⟨update_snd_zero c xy x0 hold,
    update_snd_shift c xy x0 hold (by decide) (by decide),
    update_snd_shift c xy x0 hold (by decide) (by decide),
    update_snd_shift c xy x0 hold (by decide) (by decide),
    update_snd_shift c xy x0 hold (by decide) (by decide),
    update_snd_shift c xy x0 hold (by decide) (by decide),
    update_snd_six c xy x0 hold,
    update_snd_shift c xy x0 hold (by decide) (by decide),
    update_snd_shift c xy x0 hold (by decide) (by decide),
    update_snd_shift c xy x0 hold (by decide) (by decide),
    update_snd_shift c xy x0 hold (by decide) (by decide),
    update_snd_shift c xy x0 hold (by decide) (by decide),
    update_snd_shift c xy x0 hold (by decide) (by decide),
    ?_⟩
  intro v
  have hs : shiftIn (Function.update xy 12 v) x0 = shiftIn xy x0 := by
    funext k
    by_cases hk : (k : ℕ) = 0
    · have hk0 : k = 0 := Fin.ext (by simpa using hk)
      subst hk0
      rw [shiftIn_apply_zero, shiftIn_apply_zero]
    · rw [shiftIn_apply_of_ne _ _ hk, shiftIn_apply_of_ne _ _ hk]
      refine Function.update_noteq ?_ v xy
      intro hc
      rw [Fin.ext_iff] at hc
      simp at hc
      have hlt : (k : ℕ) < 13 := k.isLt
      omega
  unfold update
  rw [hs]

/-- Claim C5: the time advance also happens when `hold = true`: slot 0 of the
resulting buffer holds the newly supplied input and the previously stored
input samples (old slots 0–4) each moved one slot older (to slots 1–5),
exactly as the corresponding slots of a `hold = false` call on the same
arguments. -/
theorem iir6_hold_time_advance {T : Type*} [LinearOrderedCommRing T]
    (c : IIR6 T) (xy : Vec13 T) (x0 : T) :
    (update c xy x0 true).2 0 = x0 ∧
    (update c xy x0 true).2 1 = xy 0 ∧
    (update c xy x0 true).2 2 = xy 1 ∧
    (update c xy x0 true).2 3 = xy 2 ∧
    (update c xy x0 true).2 4 = xy 3 ∧
    (update c xy x0 true).2 5 = xy 4 ∧
    (update c xy x0 true).2 0 = (update c xy x0 false).2 0 ∧
    (update c xy x0 true).2 1 = (update c xy x0 false).2 1 ∧
    (update c xy x0 true).2 2 = (update c xy x0 false).2 2 ∧
    (update c xy x0 true).2 3 = (update c xy x0 false).2 3 ∧
    (update c xy x0 true).2 4 = (update c xy x0 false).2 4 ∧
    (update c xy x0 true).2 5 = (update c xy x0 false).2 5 := by
  have h0 := update_snd_zero c xy x0 true
  have g0 := update_snd_zero c xy x0 false
  have h1 := update_snd_shift c xy x0 true (i := 1) (by decide) (by decide)
  have g1 := update_snd_shift c xy x0 false (i := 1) (by decide) (by decide)
  have h2 := update_snd_shift c xy x0 true (i := 2) (by decide) (by decide)
  have g2 := update_snd_shift c xy x0 false (i := 2) (by decide) (by decide)
  have h3 := update_snd_shift c xy x0 true (i := 3) (by decide) (by decide)
  have g3 := update_snd_shift c xy x0 false (i := 3) (by decide) (by decide)
  have h4 := update_snd_shift c xy x0 true (i := 4) (by decide) (by decide)
  have g4 := update_snd_shift c xy x0 false (i := 4) (by decide) (by decide)
  have h5 := update_snd_shift c xy x0 true (i := 5) (by decide) (by decide)
  have g5 := update_snd_shift c xy x0 false (i := 5) (by decide) (by decide)
  exact ⟨h0, h1, h2, h3, h4, h5, h0.trans g0.symm, h1.trans g1.symm,
    h2.trans g2.symm, h3.trans g3.symm, h4.trans g4.symm, h5.trans g5.symm⟩

/-- The pass-through configuration of claim C8, over `EReal` so that the
bounds can literally be `-∞` and `+∞`: `ba = [1, 0, ..., 0]` (`b0 = 1`, all
other taps zero), `y_offset = 0`, `y_min = ⊥`, `y_max = ⊤`. -/
def passthroughRecord : IIR6 EReal :=
  { ba := (fun k => if k = 0 then 1 else 0), y_offset := 0, y_min := ⊥, y_max := ⊤ }

/-- Claim C8: with `ba = [1, 0, ..., 0]`, `y_offset = 0`, `y_min = -∞` and
`y_max = +∞` (stated over `EReal`, whose `⊥`/`⊤` play the role of the
floating-point infinities), `update` with `hold = false` returns exactly the
input, for every input and every history buffer. -/
theorem iir6_unit_passthrough (xy : Vec13 EReal) (x0 : EReal) :
    (update passthroughRecord xy x0 false).1 = x0 := by
  rw [update_fst]
  have hraw : raw passthroughRecord xy x0 false =
      0 + ∑ i, shiftIn xy x0 i * (if i = 0 then 1 else 0) := rfl
  have hsum : ∑ i : Fin 13, shiftIn xy x0 i * (if i = 0 then 1 else 0) =
      x0 := by
    rw [Finset.sum_eq_single 0]
    · rw [if_pos rfl, mul_one, shiftIn_apply_zero]
    · intro b _ hb
      rw [if_neg hb, mul_zero]
    · intro hmem
      exact absurd (Finset.mem_univ 0) hmem
  rw [hraw, hsum, zero_add]
  show clamp x0 passthroughRecord.y_min passthroughRecord.y_max = x0
  exact clamp_eq_self bot_le le_top

/-- A record with inverted bounds (`y_min = 1 > 0 = y_max`), zero taps and
zero offset, over `ℤ`; used to exhibit the behaviour when the invariant
`y_min ≤ y_max` is violated. -/
def invertedRecord : IIR6 ℤ :=
  { ba := fun _ => 0, y_offset := 0, y_min := 1, y_max := 0 }

/-- A record with zero taps, offset 5 and bounds `[0, 1]` over `ℤ`, whose raw
output 5 always saturates at `y_max = 1`. -/
def offsetRecord : IIR6 ℤ :=
  { ba := fun _ => 0, y_offset := 5, y_min := 0, y_max := 1 }

/-- Counterexample to claim C3 as stated (quantified over every record): for
the record with inverted bounds `y_min = 1 > 0 = y_max`, a first call returns
`clamp(0, 1, 0) = 1`, but the following `hold = true` call returns
`clamp(1, 1, 0) = 0 ≠ 1`, not the preceding output. -/
theorem iir6_hold_differs_on_inverted_bounds :
    (update invertedRecord (update invertedRecord (fun _ => 0) 0 false).2
        0 true).1 ≠ (update invertedRecord (fun _ => 0) 0 false).1 := by
  decide

/-- Claim C3 (amended with the record invariant `y_min ≤ y_max`, which the
counterexample shows is needed): for every record satisfying the invariant
and every history buffer produced by a preceding `update` call with that same
record, `update` with `hold = true` returns the immediately preceding call's
output unchanged, regardless of the new input supplied. -/
theorem iir6_hold_returns_previous {T : Type*} [LinearOrderedCommRing T]
    (c : IIR6 T) (xy : Vec13 T) (x0 x1 : T) (hold0 : Bool)
    (h : c.y_min ≤ c.y_max) :
    (update c (update c xy x0 hold0).2 x1 true).1 =
      (update c xy x0 hold0).1 := by
  have hraw : raw c (update c xy x0 hold0).2 x1 true =
      (update c xy x0 hold0).1 := by
    have h7 : raw c (update c xy x0 hold0).2 x1 true =
        (update c xy x0 hold0).2 6 := by
      show shiftIn (update c xy x0 hold0).2 x1 7 = _
      rw [shiftIn_apply_of_ne _ _ (by decide)]
      exact congrArg (update c xy x0 hold0).2 (by decide)
    rw [h7]
    exact update_snd_six c xy x0 hold0
  have hb := clamp_mem (v := raw c xy x0 hold0) h
  rw [update_fst c (update c xy x0 hold0).2 x1 true, hraw,
    update_fst c xy x0 hold0]
  exact clamp_eq_self hb.1 hb.2

/-- Witness for the amended claim C3 at `T = ℤ`: `offsetRecord` satisfies the
invariant, and the held second call returns the first call's output. -/
theorem iir6_hold_returns_previous_witness :
    offsetRecord.y_min ≤ offsetRecord.y_max ∧
      (update offsetRecord (update offsetRecord (fun _ => 0) 2 false).2
        9 true).1 = (update offsetRecord (fun _ => 0) 2 false).1 :=
  ⟨by decide,
    iir6_hold_returns_previous offsetRecord (fun _ => 0) 2 9 false (by decide)⟩

/-- Claim C4: assuming `y_min ≤ y_max`, if the raw computed value exceeds
`y_max` then `update` returns exactly `y_max`, if it is below `y_min` then it
returns exactly `y_min`, and the value stored in the newest-output slot
(slot 6) equals the clamped return value.  (NaN does not exist in this
model.) -/
theorem iir6_saturation {T : Type*} [LinearOrderedCommRing T]
    (c : IIR6 T) (xy : Vec13 T) (x0 : T) (hold : Bool)
    (h : c.y_min ≤ c.y_max) :
    (c.y_max < raw c xy x0 hold → (update c xy x0 hold).1 = c.y_max) ∧
    (raw c xy x0 hold < c.y_min → (update c xy x0 hold).1 = c.y_min) ∧
    (update c xy x0 hold).2 6 = (update c xy x0 hold).1 := by
  refine ⟨?_, ?_, update_snd_six c xy x0 hold⟩
  · intro hgt
    rw [update_fst]
    unfold clamp
    rw [if_neg (not_lt_of_le (le_trans h (le_of_lt hgt))), if_pos hgt]
  · intro hlt
    rw [update_fst]
    unfold clamp
    rw [if_pos hlt]

/-- Witness for claim C4 at `T = ℤ`: `offsetRecord` has `y_min = 0 ≤ 1 =
y_max` and raw value 5 (its offset), which exceeds `y_max`, so the call
returns `y_max = 1` and slot 6 stores it. -/
theorem iir6_saturation_witness :
    offsetRecord.y_min ≤ offsetRecord.y_max ∧
    offsetRecord.y_max < raw offsetRecord (fun _ => 0) 0 false ∧
    ((offsetRecord.y_max < raw offsetRecord (fun _ => 0) 0 false →
        (update offsetRecord (fun _ => 0) 0 false).1 = offsetRecord.y_max) ∧
      (raw offsetRecord (fun _ => 0) 0 false < offsetRecord.y_min →
        (update offsetRecord (fun _ => 0) 0 false).1 = offsetRecord.y_min) ∧
      (update offsetRecord (fun _ => 0) 0 false).2 6 =
        (update offsetRecord (fun _ => 0) 0 false).1) :=
  ⟨by decide, by decide,
    iir6_saturation offsetRecord (fun _ => 0) 0 false (by decide)⟩

/-- Claim C7: when the invariant is violated (`y_max < y_min`), clamping is
silently inverted: `update` returns `y_min` whenever the raw value is below
`y_min` and `y_max` otherwise, and in particular it never returns the raw
computed value itself. -/
theorem iir6_inverted_bounds {T : Type*} [LinearOrderedCommRing T]
    (c : IIR6 T) (xy : Vec13 T) (x0 : T) (hold : Bool)
    (h : c.y_max < c.y_min) :
    (update c xy x0 hold).1 =
      (if raw c xy x0 hold < c.y_min then c.y_min else c.y_max) ∧
    (update c xy x0 hold).1 ≠ raw c xy x0 hold := by
  rw [update_fst]
  unfold clamp
  by_cases hlt : raw c xy x0 hold < c.y_min
  · rw [if_pos hlt, if_pos hlt]
    exact ⟨rfl, ne_of_gt hlt⟩
  · have hgt : c.y_max < raw c xy x0 hold :=
      lt_of_lt_of_le h (le_of_not_lt hlt)
    rw [if_neg hlt, if_neg hlt, if_pos hgt]
    exact ⟨rfl, ne_of_lt hgt⟩

/-- Witness for claim C7 at `T = ℤ`: `invertedRecord` has `y_max = 0 < 1 =
y_min`; its raw value 0 is below `y_min`, so the call returns `y_min = 1`,
which differs from the raw value. -/
theorem iir6_inverted_bounds_witness :
    invertedRecord.y_max < invertedRecord.y_min ∧
    ((update invertedRecord (fun _ => 0) 0 false).1 =
        (if raw invertedRecord (fun _ => 0) 0 false < invertedRecord.y_min
          then invertedRecord.y_min else invertedRecord.y_max) ∧
      (update invertedRecord (fun _ => 0) 0 false).1 ≠
        raw invertedRecord (fun _ => 0) 0 false) :=
  ⟨by decide, iir6_inverted_bounds invertedRecord (fun _ => 0) 0 false (by decide)⟩

/-- Claim C9: for every record with `y_min ≤ y_max`, the returned value lies
in `[y_min, y_max]` for either value of `hold`, the newest-output slot stores
exactly the returned value, and the `hold = true` result is the previous
output slot passed through `clamp` with the bounds of the record supplied to
the current call (so tightened bounds re-clamp the held output). -/
theorem iir6_output_within_bounds {T : Type*} [LinearOrderedCommRing T]
    (c : IIR6 T) (xy : Vec13 T) (x0 : T) (hold : Bool)
    (h : c.y_min ≤ c.y_max) :
    c.y_min ≤ (update c xy x0 hold).1 ∧
    (update c xy x0 hold).1 ≤ c.y_max ∧
    (update c xy x0 hold).2 6 = (update c xy x0 hold).1 ∧
    (update c xy x0 true).1 = clamp (xy 6) c.y_min c.y_max := by
  have hb := clamp_mem (v := raw c xy x0 hold) h
  refine ⟨?_, ?_, update_snd_six c xy x0 hold, ?_⟩
  · rw [update_fst]
    exact hb.1
  · rw [update_fst]
    exact hb.2
  · exact update_fst c xy x0 true

/-- Witness for claim C9 at `T = ℤ`: with `offsetRecord` (bounds `[0, 1]`)
and a history whose previous-output slot holds 9, the held call returns
`clamp 9 0 1 = 1`, which lies within the bounds and is stored in slot 6. -/
theorem iir6_output_within_bounds_witness :
    offsetRecord.y_min ≤ offsetRecord.y_max ∧
    (offsetRecord.y_min ≤ (update offsetRecord (fun _ => 9) 4 true).1 ∧
      (update offsetRecord (fun _ => 9) 4 true).1 ≤ offsetRecord.y_max ∧
      (update offsetRecord (fun _ => 9) 4 true).2 6 =
        (update offsetRecord (fun _ => 9) 4 true).1 ∧
      (update offsetRecord (fun _ => 9) 4 true).1 =
        clamp ((fun _ => (9 : ℤ)) 6) offsetRecord.y_min offsetRecord.y_max) :=
  ⟨by decide, iir6_output_within_bounds offsetRecord (fun _ => 9) 4 true (by decide)⟩

end Idsp
